import Mathlib

/-!
Verification of the glitch timing-model component (`pint/models/glitch.py`).

The component has two halves:

* a validation half (`setup`) operating on a store of named, indexed
  parameters (`GLPH_n`, `GLEP_n`, `GLF0_n`, `GLF1_n`, `GLF2_n`, `GLF0D_n`,
  `GLTD_n`); parameter values are the parsed decimal numbers of a parameter
  file, modelled as `Option ℚ` (`none` = a parameter object whose `value`
  attribute is still `None`);
* an evaluation half (`glitch_phase` and the six `d_phase_d_*` functions),
  pure floating-point arithmetic over the per-event field values, modelled
  over `ℝ`.  All astropy unit conversions (`u.day`, `.to(u.second)`,
  `dimensionless_cycles`, implicit conversions on in-place array updates)
  amount to fixed positive scale factors; the model expresses every
  quantity in a coherent unit system (times in seconds, epochs and
  `tdbld` timestamps in days with the single explicit 86400 s/day factor
  of `dt = (tdbld - eph) * u.day - delay; dt.to(u.second)`, frequencies
  in Hz, phases in cycles), under which those conversions are the
  identity.  The decay timescale field of an event is therefore carried
  in seconds.
-/

namespace PintGlitch

/-- The seven parameter families of the component.  A parameter name such
as `GLF0_2` is modelled pre-parsed as the pair (family, index); for the
names this component owns, the substring tests of the source
(`'GLPH_' in y`, `x.startswith('GLEP_')`, `split_prefixed_name`) coincide
with equality of the family tag. -/
inductive Fam where
  | GLPH
  | GLEP
  | GLF0
  | GLF1
  | GLF2
  | GLF0D
  | GLTD
deriving DecidableEq

/-- One entry of the parameter store: family, index, and the parameter's
`value` attribute (`none` when still unset, as for the freshly constructed
`GLEP_1`). -/
structure Param where
  fam : Fam
  index : ℕ
  value : Option ℚ
deriving DecidableEq

/-- Errors surfaced by the component: `MissingParameter(component, key)`
from `setup`, and the `ValueError` each derivative function raises when
the prefix of the parameter name does not match the family the function
is responsible for. -/
inductive GlitchError where
  | missingParameter (component : String) (fam : Fam) (idx : ℕ)
  | valueError (opFam : Fam) (given : Fam)
deriving DecidableEq

/-- `self.glitch_prop = ['GLPH_', 'GLF0_', 'GLF1_', 'GLF2_', 'GLF0D_', 'GLTD_']`
(the six per-glitch families; note `GLEP_` is not among them). -/
def glitch_prop : List Fam := [.GLPH, .GLF0, .GLF1, .GLF2, .GLF0D, .GLTD]

/-- Attribute lookup `getattr(self, fam + str(i))` on the parameter store:
the first entry with the given family and index. -/
def lookupPar : List Param → Fam → ℕ → Option Param
  | [], _, _ => none
  | p :: ps, f, i =>
      if p.fam = f ∧ p.index = i then some p else lookupPar ps f i

/-- `hasattr(self, fam + str(i))`. -/
def hasPar (ps : List Param) (f : Fam) (i : ℕ) : Prop :=
  (lookupPar ps f i).isSome

instance (ps : List Param) (f : Fam) (i : ℕ) : Decidable (hasPar ps f i) := by
  unfold hasPar
  infer_instance

/-- `self.glitch_indices = [getattr(self, y).index for x in self.glitch_prop
for y in self.params if x in y]`: the indices of all parameters belonging
to one of the six per-glitch families, family by family. -/
def glitch_indices (ps : List Param) : List ℕ :=
  glitch_prop.flatMap fun f => (ps.filter fun p => decide (p.fam = f)).map Param.index

/-- One step of the parameter-synthesis loop: if the family parameter at
this index is absent, clone the index-1 template (`param0.new_param(idx)`)
and set its value to `0.0`; the clone is appended to the store. -/
def addFam (ps : List Param) (i : ℕ) (f : Fam) : List Param :=
  if hasPar ps f i then ps else ps ++ [⟨f, i, some 0⟩]

/-- The inner `for param in self.glitch_prop` loop of `setup` for one index:
synthesize every absent family parameter at that index with value 0.
(The accompanying `register_deriv_funcs` calls mutate only the derivative
registry of the base class, not the parameter store.) -/
def addMissing (ps : List Param) (i : ℕ) : List Param :=
  glitch_prop.foldl (fun acc f => addFam acc i f) ps

/-- The `for idx in set(self.glitch_indices)` loop of `setup`: for each
collected index require `GLEP_idx` to exist (else
`MissingParameter("Glitch", "GLEP_%d" % idx)`), then synthesize the absent
family parameters at that index. -/
def setupLoop : List ℕ → List Param → Except GlitchError (List Param)
  | [], ps => Except.ok ps
  | i :: rest, ps =>
      if hasPar ps .GLEP i then setupLoop rest (addMissing ps i)
      else Except.error (.missingParameter "Glitch" .GLEP i)

/-- The decay-term check on one `GLF0D_idx` parameter:
`glf0d.value != 0.0 and getattr(self, "GLTD_%d" % idx).value == 0.0`.
(After the synthesis loop `GLTD_idx` always exists for any `GLF0D_idx` in
the store.) -/
def badDecay (ps : List Param) (p : Param) : Bool :=
  decide (p.fam = Fam.GLF0D) && decide (p.value ≠ some 0) &&
    decide ((lookupPar ps Fam.GLTD p.index).map Param.value = some (some 0))

/-- The `for glf0dnm in glf0dparams` scan of `setup`: the first `GLF0D_`
parameter with nonzero value whose matching `GLTD_` value is zero. -/
def decayScan (ps : List Param) : Option Param :=
  ps.find? (badDecay ps)

/-- `Glitch.setup`: collect the per-glitch indices, require epochs and
synthesize missing family parameters, then run the decay-term check
(raising `MissingParameter("Glitch", "GLTD_%d" % idx)` on its first hit). -/
def setup (ps : List Param) : Except GlitchError (List Param) :=
  match setupLoop (glitch_indices ps).dedup ps with
  | .error e => Except.error e
  | .ok ps2 =>
      match decayScan ps2 with
      | some p => Except.error (.missingParameter "Glitch" .GLTD p.index)
      | none => Except.ok ps2

/-- Condition (a) of the validation contract: some collected index has no
epoch parameter. -/
def condA (ps : List Param) : Prop :=
  ∃ i ∈ (glitch_indices ps).dedup, lookupPar ps Fam.GLEP i = none

instance (ps : List Param) : Decidable (condA ps) := by
  unfold condA
  infer_instance

/-- The `GLTD` value consulted by the decay check, read off the original
store: an absent `GLTD_i` is synthesized with value 0 before the check, so
absence counts as zero. -/
def gltdZeroAfter (ps : List Param) (i : ℕ) : Prop :=
  ((lookupPar ps Fam.GLTD i).map Param.value).getD (some 0) = some 0

instance (ps : List Param) (i : ℕ) : Decidable (gltdZeroAfter ps i) := by
  unfold gltdZeroAfter
  infer_instance

/-- Condition (b) of the validation contract: some `GLF0D_` parameter has
nonzero value while the matching decay timescale (after zero-defaulting)
is zero. -/
def condB (ps : List Param) : Prop :=
  ∃ p ∈ ps, p.fam = Fam.GLF0D ∧ p.value ≠ some 0 ∧ gltdZeroAfter ps p.index

instance (ps : List Param) : Decidable (condB ps) := by
  unfold condB
  infer_instance

/-- The attribute reads `glitch_phase` performs unconditionally for every
`GLEP_` parameter of the store: the epoch's own value (`glep.value`,
used as `eph`) and the `GLPH_`, `GLF0_`, `GLF1_`, `GLF2_`, `GLF0D_`
parameters at the epoch's index (`GLTD_` is read only when the decay
amplitude is nonzero).  When this is `false`, evaluating `glitch_phase`
on the store raises `AttributeError` (or fails on the unset epoch value)
instead of returning an array. -/
def glitchPhaseAttrsPresent (ps : List Param) : Bool :=
  ps.all fun p =>
    !(decide (p.fam = Fam.GLEP)) ||
      (p.value.isSome &&
        ([Fam.GLPH, Fam.GLF0, Fam.GLF1, Fam.GLF2, Fam.GLF0D].all fun f =>
          decide (hasPar ps f p.index)))

/-- One glitch event as read by the evaluation functions: the current
values of `GLEP_n` (days), `GLPH_n` (cycles), `GLF0_n` (Hz), `GLF1_n`
(Hz/s), `GLF2_n` (Hz/s²), `GLF0D_n` (Hz), and `GLTD_n` expressed in
seconds (the stored value is in days; astropy's automatic conversion to
the coherent system is the fixed 86400 s/day factor). -/
structure GlitchEvent where
  eph : ℝ
  dphs : ℝ
  dF0 : ℝ
  dF1 : ℝ
  dF2 : ℝ
  dF0D : ℝ
  tau : ℝ

/-- One observation: the `tdbld` timestamp (days) paired with its delay
(seconds). -/
abbrev TOA : Type := ℝ × ℝ

/-- `dt = (tbl['tdbld'] - eph) * u.day - delay; dt = dt.to(u.second)`:
the signed time since the glitch epoch, in seconds.  Every evaluation
function of the source recomputes `dt` with this same expression. -/
def dtOf (e : GlitchEvent) (td : TOA) : ℝ :=
  (td.1 - e.eph) * 86400 - td.2

/-- The contribution of one glitch event to one entry of the phase array:
zero when the entry is not affected (`affected = dt > 0.0`), otherwise
`dphs + dt*(dF0 + 0.5*dt*dF1 + 1./6.*dt*dt*dF2) + decayterm` with
`decayterm = dF0D * tau * (1.0 - np.exp(-(dt/tau)))` when `dF0D != 0.0`
and `decayterm = 0.0` otherwise (the `else` branch of the source, which
never touches `tau`). -/
noncomputable def glitchContrib (e : GlitchEvent) (td : TOA) : ℝ :=
  let dt := dtOf e td
  if 0 < dt then
    e.dphs + dt * (e.dF0 + 0.5 * dt * e.dF1 + 1 / 6 * dt * dt * e.dF2) +
      (if e.dF0D ≠ 0 then e.dF0D * e.tau * (1 - Real.exp (-(dt / e.tau))) else 0)
  else 0

/-- `Glitch.glitch_phase`: the phase array starts at zero and each event
(one per `GLEP_` parameter, in store order) adds its contribution to the
affected entries, so each entry is the sum of the per-event
contributions. -/
noncomputable def glitch_phase (events : List GlitchEvent) (toas : List TOA) : List ℝ :=
  toas.map fun td => (events.map fun e => glitchContrib e td).sum

/-- `Glitch.d_phase_d_GLPH`: after the prefix check
(`if p != 'GLPH_': raise ValueError`), a zero array with
`dpdGLPH[affected] += 1.0`. -/
noncomputable def d_phase_d_GLPH (e : GlitchEvent) (fam : Fam) (toas : List TOA) :
    Except GlitchError (List ℝ) :=
  if fam ≠ Fam.GLPH then Except.error (.valueError .GLPH fam)
  else Except.ok (toas.map fun td => if 0 < dtOf e td then 1 else 0)

/-- `Glitch.d_phase_d_GLF0`: a zero array with
`dpdGLF0[affected] = dt[affected]`. -/
noncomputable def d_phase_d_GLF0 (e : GlitchEvent) (fam : Fam) (toas : List TOA) :
    Except GlitchError (List ℝ) :=
  if fam ≠ Fam.GLF0 then Except.error (.valueError .GLF0 fam)
  else Except.ok (toas.map fun td => if 0 < dtOf e td then dtOf e td else 0)

/-- `Glitch.d_phase_d_GLF1`: a zero array with
`dpdGLF1[affected] += 0.5 * dt[affected] * dt[affected]`. -/
noncomputable def d_phase_d_GLF1 (e : GlitchEvent) (fam : Fam) (toas : List TOA) :
    Except GlitchError (List ℝ) :=
  if fam ≠ Fam.GLF1 then Except.error (.valueError .GLF1 fam)
  else Except.ok (toas.map fun td =>
    if 0 < dtOf e td then 0.5 * dtOf e td * dtOf e td else 0)

/-- `Glitch.d_phase_d_GLF2`: a zero array with
`dpdGLF2[affected] += 1.0/6.0 * dt * dt * dt`. -/
noncomputable def d_phase_d_GLF2 (e : GlitchEvent) (fam : Fam) (toas : List TOA) :
    Except GlitchError (List ℝ) :=
  if fam ≠ Fam.GLF2 then Except.error (.valueError .GLF2 fam)
  else Except.ok (toas.map fun td =>
    if 0 < dtOf e td then 1 / 6 * dtOf e td * dtOf e td * dtOf e td else 0)

/-- `Glitch.d_phase_d_GLF0D`: a zero array with
`dpdGLF0D[affected] += tau * (1.0 - np.exp(-dt[affected] / tau))`.
There is no guard on `tau` here: the division by `tau` is performed for
every affected entry whatever the current `GLTD` value. -/
noncomputable def d_phase_d_GLF0D (e : GlitchEvent) (fam : Fam) (toas : List TOA) :
    Except GlitchError (List ℝ) :=
  if fam ≠ Fam.GLF0D then Except.error (.valueError .GLF0D fam)
  else Except.ok (toas.map fun td =>
    if 0 < dtOf e td then e.tau * (1 - Real.exp (-(dtOf e td / e.tau))) else 0)

/-- `Glitch.d_phase_d_GLTD`: after the prefix check, if the current
`GLTD` value is exactly zero the function returns a fresh all-zero array
at once; otherwise a zero array with
`dpdGLTD[affected] += glf0d * (1.0 - np.exp(-dt/tau))
+ glf0d * tau * (-np.exp(-dt/tau)) * dt / (tau * tau)`. -/
noncomputable def d_phase_d_GLTD (e : GlitchEvent) (fam : Fam) (toas : List TOA) :
    Except GlitchError (List ℝ) :=
  if fam ≠ Fam.GLTD then Except.error (.valueError .GLTD fam)
  else if e.tau = 0 then Except.ok (toas.map fun _ => 0)
  else Except.ok (toas.map fun td =>
    if 0 < dtOf e td then
      e.dF0D * (1 - Real.exp (-(dtOf e td / e.tau))) +
        e.dF0D * e.tau * (-Real.exp (-(dtOf e td / e.tau))) * dtOf e td /
          (e.tau * e.tau)
    else 0)

/-- Entry `i` of a derivative result, `none` when the call raised. -/
def resEntry (r : Except GlitchError (List ℝ)) (i : ℕ) : Option ℝ :=
  match r with
  | .ok v => some (v.getD i 0)
  | .error _ => none

/-- The parameter-dependent divisors used while evaluating the decay term
of `glitch_phase`: the expression `(dt[affected] / tau)` divides by `tau`
once per affected entry, and only when `dF0D != 0.0` (the `else` branch
performs no division at all). -/
noncomputable def glitchPhaseDivisors (e : GlitchEvent) (toas : List TOA) : List ℝ :=
  if e.dF0D ≠ 0 then
    toas.flatMap fun td => if 0 < dtOf e td then [e.tau] else []
  else []

/-- The parameter-dependent divisors of `d_phase_d_GLF0D`: the expression
`- dt[affected] / tau` divides by `tau` once per affected entry,
unconditionally. -/
noncomputable def glf0dDerivDivisors (e : GlitchEvent) (toas : List TOA) : List ℝ :=
  toas.flatMap fun td => if 0 < dtOf e td then [e.tau] else []

/-- The parameter-dependent divisors of `d_phase_d_GLTD`: nothing when the
early `par_GLTD.value == 0.0` return fires, otherwise the two `exp`
arguments divide by `tau` and the final term divides by `tau * tau`, once
per affected entry. -/
noncomputable def gltdDerivDivisors (e : GlitchEvent) (toas : List TOA) : List ℝ :=
  if e.tau = 0 then []
  else toas.flatMap fun td =>
    if 0 < dtOf e td then [e.tau, e.tau * e.tau] else []

/-- An event with all six per-glitch parameter values zero (the epoch is
irrelevant: such an event contributes nothing anywhere). -/
def zeroFields (e : GlitchEvent) : GlitchEvent :=
  { e with dphs := 0, dF0 := 0, dF1 := 0, dF2 := 0, dF0D := 0, tau := 0 }

/-! Helper lemmas about the parameter store. -/

theorem lookupPar_append_some {ps : List Param} {f : Fam} {i : ℕ} {p : Param}
    (h : lookupPar ps f i = some p) (qs : List Param) :
    lookupPar (ps ++ qs) f i = some p := by
  induction ps with
  | nil => simp [lookupPar] at h
  | cons a ps ih =>
      by_cases hc : a.fam = f ∧ a.index = i
      · simp_all [lookupPar]
      · simp only [lookupPar, if_neg hc] at h
        simpa [lookupPar, if_neg hc] using ih h

theorem lookupPar_append_none {ps : List Param} {f : Fam} {i : ℕ}
    (h : lookupPar ps f i = none) (qs : List Param) :
    lookupPar (ps ++ qs) f i = lookupPar qs f i := by
  induction ps with
  | nil => simp [lookupPar]
  | cons a ps ih =>
      by_cases hc : a.fam = f ∧ a.index = i
      · simp [lookupPar, if_pos hc] at h
      · simp only [lookupPar, if_neg hc] at h
        simpa [lookupPar, if_neg hc] using ih h

theorem lookupPar_mem {ps : List Param} {f : Fam} {i : ℕ} {p : Param}
    (h : lookupPar ps f i = some p) :
    p ∈ ps ∧ p.fam = f ∧ p.index = i := by
  induction ps with
  | nil => simp [lookupPar] at h
  | cons a ps ih =>
      by_cases hc : a.fam = f ∧ a.index = i
      · simp only [lookupPar, if_pos hc, Option.some.injEq] at h
        subst h
        exact ⟨List.mem_cons_self a ps, hc⟩
      · simp only [lookupPar, if_neg hc] at h
        obtain ⟨hm, hf, hi⟩ := ih h
        exact ⟨List.mem_cons_of_mem a hm, hf, hi⟩

theorem lookupPar_eq_none_iff {ps : List Param} {f : Fam} {i : ℕ} :
    lookupPar ps f i = none ↔ ∀ p ∈ ps, ¬(p.fam = f ∧ p.index = i) := by
  induction ps with
  | nil => simp [lookupPar]
  | cons a ps ih =>
      by_cases hc : a.fam = f ∧ a.index = i
      · simp [lookupPar, if_pos hc, hc]
      · simp only [lookupPar, if_neg hc, ih, List.mem_cons]
        constructor
        · intro h p hp
          rcases hp with hp | hp
          · subst hp
            exact hc
          · exact h p hp
        · intro h p hp
          exact h p (Or.inr hp)

theorem lookupPar_isSome_iff {ps : List Param} {f : Fam} {i : ℕ} :
    (lookupPar ps f i).isSome ↔ ∃ p ∈ ps, p.fam = f ∧ p.index = i := by
  rw [← Option.ne_none_iff_isSome]
  rw [Ne, lookupPar_eq_none_iff]
  push_neg
  simp

theorem hasPar_append {ps : List Param} {f : Fam} {i : ℕ}
    (h : hasPar ps f i) (qs : List Param) : hasPar (ps ++ qs) f i := by
  unfold hasPar at h ⊢
  obtain ⟨p, hp⟩ := Option.isSome_iff_exists.mp h
  rw [lookupPar_append_some hp qs]
  rfl

theorem addFam_shape (ps : List Param) (i : ℕ) (f : Fam) :
    ∃ qs, addFam ps i f = ps ++ qs ∧
      ∀ q ∈ qs, q.fam = f ∧ q.index = i ∧ q.value = some 0 := by
  unfold addFam
  by_cases h : hasPar ps f i
  · exact ⟨[], by simp [if_pos h]⟩
  · refine ⟨[⟨f, i, some 0⟩], by simp [if_neg h], ?_⟩
    intro q hq
    simp only [List.mem_singleton] at hq
    subst hq
    exact ⟨rfl, rfl, rfl⟩

theorem foldl_addFam_shape (fs : List Fam) (i : ℕ) :
    ∀ ps, ∃ qs, fs.foldl (fun acc f => addFam acc i f) ps = ps ++ qs ∧
      ∀ q ∈ qs, q.fam ∈ fs ∧ q.index = i ∧ q.value = some 0 := by
  induction fs with
  | nil => intro ps; exact ⟨[], by simp, by simp⟩
  | cons f fs ih =>
      intro ps
      obtain ⟨q0, hq0, hq0mem⟩ := addFam_shape ps i f
      obtain ⟨qs, hqs, hqsmem⟩ := ih (addFam ps i f)
      refine ⟨q0 ++ qs, ?_, ?_⟩
      · rw [hq0] at hqs
        simp only [List.foldl_cons, hqs, hq0, List.append_assoc]
      · intro q hq
        rcases List.mem_append.mp hq with hq | hq
        · obtain ⟨h1, h2, h3⟩ := hq0mem q hq
          exact ⟨by simp [h1], h2, h3⟩
        · obtain ⟨h1, h2, h3⟩ := hqsmem q hq
          exact ⟨List.mem_cons_of_mem f h1, h2, h3⟩

theorem addMissing_shape (ps : List Param) (i : ℕ) :
    ∃ qs, addMissing ps i = ps ++ qs ∧
      ∀ q ∈ qs, q.fam ∈ glitch_prop ∧ q.index = i ∧ q.value = some 0 :=
  foldl_addFam_shape glitch_prop i ps

theorem lookupPar_fam_absent {qs : List Param} {f : Fam} {i : ℕ}
    (h : ∀ q ∈ qs, q.fam ≠ f) : lookupPar qs f i = none := by
  rw [lookupPar_eq_none_iff]
  intro p hp hc
  exact h p hp hc.1

theorem lookupPar_addMissing_GLEP (ps : List Param) (j i : ℕ) :
    lookupPar (addMissing ps j) Fam.GLEP i = lookupPar ps Fam.GLEP i := by
  obtain ⟨qs, hq, hmem⟩ := addMissing_shape ps j
  rw [hq]
  cases hl : lookupPar ps Fam.GLEP i with
  | some p => exact lookupPar_append_some hl qs
  | none =>
      rw [lookupPar_append_none hl qs]
      refine lookupPar_fam_absent ?_
      intro q hq2 hf
      have := (hmem q hq2).1
      rw [hf] at this
      simp [glitch_prop] at this

theorem hasPar_addFam_self (ps : List Param) (i : ℕ) (f : Fam) :
    hasPar (addFam ps i f) f i := by
  unfold addFam
  by_cases h : hasPar ps f i
  · simpa [if_pos h] using h
  · rw [if_neg h]
    unfold hasPar at h ⊢
    rw [lookupPar_append_none (Option.not_isSome_iff_eq_none.mp h)]
    simp [lookupPar]

theorem hasPar_addFam_mono {ps : List Param} {f : Fam} {i : ℕ}
    (h : hasPar ps f i) (j : ℕ) (g : Fam) : hasPar (addFam ps j g) f i := by
  unfold addFam
  by_cases hg : hasPar ps g j
  · simpa [if_pos hg] using h
  · rw [if_neg hg]
    exact hasPar_append h _

theorem hasPar_foldl_addFam_mono {ps : List Param} {f : Fam} {i : ℕ}
    (fs : List Fam) (j : ℕ) (h : hasPar ps f i) :
    hasPar (fs.foldl (fun acc g => addFam acc j g) ps) f i := by
  induction fs generalizing ps with
  | nil => simpa using h
  | cons g fs ih => exact ih (hasPar_addFam_mono h j g)

theorem hasPar_foldl_addFam {f : Fam} (fs : List Fam) (hf : f ∈ fs)
    (ps : List Param) (i : ℕ) :
    hasPar (fs.foldl (fun acc g => addFam acc i g) ps) f i := by
  induction fs generalizing ps with
  | nil => cases hf
  | cons g fs ih =>
      simp only [List.foldl_cons]
      rcases List.mem_cons.mp hf with hf | hf
      · subst hf
        exact hasPar_foldl_addFam_mono fs i (hasPar_addFam_self ps i f)
      · exact ih hf (addFam ps i g)

theorem hasPar_addMissing {f : Fam} (hf : f ∈ glitch_prop) (ps : List Param) (i : ℕ) :
    hasPar (addMissing ps i) f i :=
  hasPar_foldl_addFam glitch_prop hf ps i

theorem hasPar_addMissing_mono {ps : List Param} {f : Fam} {i : ℕ}
    (h : hasPar ps f i) (j : ℕ) : hasPar (addMissing ps j) f i :=
  hasPar_foldl_addFam_mono glitch_prop j h

theorem addMissing_eq_self {ps : List Param} {i : ℕ}
    (h : ∀ f ∈ glitch_prop, hasPar ps f i) : addMissing ps i = ps := by
  unfold addMissing
  have : ∀ fs : List Fam, (∀ f ∈ fs, hasPar ps f i) →
      fs.foldl (fun acc f => addFam acc i f) ps = ps := by
    intro fs
    induction fs with
    | nil => intro _; simp
    | cons f fs ih =>
        intro hall
        have h1 : addFam ps i f = ps := by
          unfold addFam
          rw [if_pos (hall f (List.mem_cons_self f fs))]
        simp only [List.foldl_cons, h1]
        exact ih fun g hg => hall g (List.mem_cons_of_mem f hg)
  exact this glitch_prop h

theorem setupLoop_ok (l : List ℕ) :
    ∀ ps, (∀ i ∈ l, hasPar ps Fam.GLEP i) →
      ∃ qs, setupLoop l ps = Except.ok (ps ++ qs) ∧
        (∀ q ∈ qs, q.fam ∈ glitch_prop ∧ q.index ∈ l ∧ q.value = some 0) ∧
        (∀ i ∈ l, ∀ f ∈ glitch_prop, hasPar (ps ++ qs) f i) := by
  induction l with
  | nil =>
      intro ps _
      exact ⟨[], by simp [setupLoop], by simp, by simp⟩
  | cons i l ih =>
      intro ps hall
      have hep : hasPar ps Fam.GLEP i := hall i (List.mem_cons_self i l)
      obtain ⟨q0, hq0, hq0mem⟩ := addMissing_shape ps i
      have hep2 : ∀ j ∈ l, hasPar (addMissing ps i) Fam.GLEP j := by
        intro j hj
        unfold hasPar
        rw [lookupPar_addMissing_GLEP]
        exact hall j (List.mem_cons_of_mem i hj)
      obtain ⟨qs, hqs, hqsmem, hqspres⟩ := ih (addMissing ps i) hep2
      rw [hq0] at hqs hqspres
      refine ⟨q0 ++ qs, ?_, ?_, ?_⟩
      · simp only [setupLoop, if_pos hep, hq0]
        rw [hqs, List.append_assoc]
      · intro q hq
        rcases List.mem_append.mp hq with hq | hq
        · obtain ⟨h1, h2, h3⟩ := hq0mem q hq
          exact ⟨h1, by simp [h2], h3⟩
        · obtain ⟨h1, h2, h3⟩ := hqsmem q hq
          exact ⟨h1, List.mem_cons_of_mem i h2, h3⟩
      · intro j hj f hf
        rw [← List.append_assoc]
        rcases List.mem_cons.mp hj with hj | hj
        · subst hj
          have : hasPar (ps ++ q0) f j := by
            rw [← hq0]
            exact hasPar_addMissing hf ps j
          exact hasPar_append this qs
        · exact hqspres j hj f hf

theorem setupLoop_error (l : List ℕ) :
    ∀ ps, (∃ i ∈ l, lookupPar ps Fam.GLEP i = none) →
      ∃ i ∈ l, lookupPar ps Fam.GLEP i = none ∧
        setupLoop l ps = Except.error (.missingParameter "Glitch" Fam.GLEP i) := by
  induction l with
  | nil => intro ps h; simp at h
  | cons i l ih =>
      intro ps h
      by_cases hep : hasPar ps Fam.GLEP i
      · have hi : lookupPar ps Fam.GLEP i ≠ none := by
          intro hc
          rw [hasPar, hc] at hep
          simp at hep
        obtain ⟨j, hj, hnone⟩ := h
        have hj2 : j ∈ l := by
          rcases List.mem_cons.mp hj with hj | hj
          · subst hj; exact absurd hnone hi
          · exact hj
        have hnone2 : lookupPar (addMissing ps i) Fam.GLEP j = none := by
          rw [lookupPar_addMissing_GLEP]; exact hnone
        obtain ⟨k, hk, hkn, hke⟩ := ih (addMissing ps i) ⟨j, hj2, hnone2⟩
        refine ⟨k, List.mem_cons_of_mem i hk, ?_, ?_⟩
        · rw [← lookupPar_addMissing_GLEP ps i k]; exact hkn
        · simp only [setupLoop, if_pos hep]; exact hke
      · refine ⟨i, List.mem_cons_self i l, ?_, ?_⟩
        · rw [hasPar] at hep
          exact Option.not_isSome_iff_eq_none.mp hep
        · simp only [setupLoop, if_neg hep]

theorem setupLoop_id (l : List ℕ) :
    ∀ ps, (∀ i ∈ l, hasPar ps Fam.GLEP i ∧ ∀ f ∈ glitch_prop, hasPar ps f i) →
      setupLoop l ps = Except.ok ps := by
  induction l with
  | nil => intro ps _; rfl
  | cons i l ih =>
      intro ps hall
      obtain ⟨hep, hfams⟩ := hall i (List.mem_cons_self i l)
      have hm : addMissing ps i = ps := addMissing_eq_self hfams
      simp only [setupLoop, if_pos hep, hm]
      exact ih ps fun j hj => hall j (List.mem_cons_of_mem i hj)

theorem mem_glitch_indices {ps : List Param} {i : ℕ} :
    i ∈ glitch_indices ps ↔ ∃ p ∈ ps, p.fam ∈ glitch_prop ∧ p.index = i := by
  simp only [glitch_indices, List.mem_flatMap, List.mem_map, List.mem_filter,
    decide_eq_true_eq]
  constructor
  · rintro ⟨f, hf, p, ⟨hp, hfam⟩, hidx⟩
    exact ⟨p, hp, by rw [hfam]; exact hf, hidx⟩
  · rintro ⟨p, hp, hf, hidx⟩
    exact ⟨p.fam, hf, p, ⟨hp, rfl⟩, hidx⟩

theorem setup_ok_inversion {ps ps2 : List Param} (h : setup ps = Except.ok ps2) :
    setupLoop (glitch_indices ps).dedup ps = Except.ok ps2 ∧ decayScan ps2 = none := by
  unfold setup at h
  cases hl : setupLoop (glitch_indices ps).dedup ps with
  | error e => rw [hl] at h; exact absurd h (by simp)
  | ok ps3 =>
      rw [hl] at h
      dsimp only at h
      cases hd : decayScan ps3 with
      | some p => rw [hd] at h; exact absurd h (by simp)
      | none =>
          rw [hd] at h
          simp only [Except.ok.injEq] at h
          subst h
          exact ⟨rfl, hd⟩

theorem badDecay_true_iff {ps : List Param} {p : Param} :
    badDecay ps p = true ↔
      p.fam = Fam.GLF0D ∧ p.value ≠ some 0 ∧
        (lookupPar ps Fam.GLTD p.index).map Param.value = some (some 0) := by
  simp [badDecay, and_assoc]

theorem badDecay_of_orig {ps qs : List Param}
    (hsh : ∀ q ∈ qs, q.fam ∈ glitch_prop ∧
      q.index ∈ (glitch_indices ps).dedup ∧ q.value = some 0)
    (hpres : ∀ i ∈ (glitch_indices ps).dedup, ∀ f ∈ glitch_prop,
      hasPar (ps ++ qs) f i)
    {p : Param} (hp : p ∈ ps) :
    badDecay (ps ++ qs) p = true ↔
      p.fam = Fam.GLF0D ∧ p.value ≠ some 0 ∧ gltdZeroAfter ps p.index := by
  rw [badDecay_true_iff]
  constructor
  · rintro ⟨h1, h2, h3⟩
    refine ⟨h1, h2, ?_⟩
    unfold gltdZeroAfter
    cases hl : lookupPar ps Fam.GLTD p.index with
    | none => rfl
    | some q =>
        rw [lookupPar_append_some hl qs] at h3
        simp at h3
        simp [h3]
  · rintro ⟨h1, h2, h3⟩
    refine ⟨h1, h2, ?_⟩
    have hidx : p.index ∈ (glitch_indices ps).dedup := by
      rw [List.mem_dedup, mem_glitch_indices]
      exact ⟨p, hp, by rw [h1]; simp [glitch_prop], rfl⟩
    have hhas : hasPar (ps ++ qs) Fam.GLTD p.index :=
      hpres p.index hidx Fam.GLTD (by simp [glitch_prop])
    cases hl : lookupPar ps Fam.GLTD p.index with
    | some q =>
        rw [lookupPar_append_some hl qs]
        unfold gltdZeroAfter at h3
        rw [hl] at h3
        simpa using h3
    | none =>
        rw [lookupPar_append_none hl qs]
        unfold hasPar at hhas
        rw [lookupPar_append_none hl qs] at hhas
        obtain ⟨q, hq⟩ := Option.isSome_iff_exists.mp hhas
        obtain ⟨hqmem, _, _⟩ := lookupPar_mem hq
        rw [hq]
        simp [(hsh q hqmem).2.2]

theorem badDecay_of_added {ps qs : List Param}
    (hsh : ∀ q ∈ qs, q.fam ∈ glitch_prop ∧
      q.index ∈ (glitch_indices ps).dedup ∧ q.value = some 0)
    {p : Param} (hp : p ∈ qs) :
    badDecay (ps ++ qs) p = false := by
  have hv : p.value = some 0 := (hsh p hp).2.2
  unfold badDecay
  simp [hv]

theorem setup_errA {ps : List Param} (ha : condA ps) :
    ∃ i, i ∈ (glitch_indices ps).dedup ∧ lookupPar ps Fam.GLEP i = none ∧
      setup ps = Except.error (.missingParameter "Glitch" Fam.GLEP i) := by
  obtain ⟨i, hi, hn, he⟩ := setupLoop_error (glitch_indices ps).dedup ps ha
  exact ⟨i, hi, hn, by simp only [setup, he]⟩

theorem setup_ok_of_conds {ps : List Param} (ha : ¬ condA ps) (hb : ¬ condB ps) :
    ∃ qs, setup ps = Except.ok (ps ++ qs) ∧
      (∀ q ∈ qs, q.fam ∈ glitch_prop ∧
        q.index ∈ (glitch_indices ps).dedup ∧ q.value = some 0) ∧
      (∀ i ∈ (glitch_indices ps).dedup, ∀ f ∈ glitch_prop,
        hasPar (ps ++ qs) f i) := by
  have hep : ∀ i ∈ (glitch_indices ps).dedup, hasPar ps Fam.GLEP i := by
    intro i hi
    unfold hasPar
    rw [Option.isSome_iff_ne_none]
    intro hn
    exact ha ⟨i, hi, hn⟩
  obtain ⟨qs, hloop, hsh, hpres⟩ := setupLoop_ok (glitch_indices ps).dedup ps hep
  have hscan : decayScan (ps ++ qs) = none := by
    unfold decayScan
    rw [List.find?_eq_none]
    intro p hp hbad
    rcases List.mem_append.mp hp with hp | hp
    · exact hb ⟨p, hp, (badDecay_of_orig hsh hpres hp).mp hbad⟩
    · rw [badDecay_of_added hsh hp] at hbad
      cases hbad
  exact ⟨qs, by simp only [setup, hloop, hscan], hsh, hpres⟩

theorem setup_errB {ps : List Param} (ha : ¬ condA ps) (hb : condB ps) :
    ∃ p ∈ ps, p.fam = Fam.GLF0D ∧ p.value ≠ some 0 ∧ gltdZeroAfter ps p.index ∧
      setup ps = Except.error (.missingParameter "Glitch" Fam.GLTD p.index) := by
  have hep : ∀ i ∈ (glitch_indices ps).dedup, hasPar ps Fam.GLEP i := by
    intro i hi
    unfold hasPar
    rw [Option.isSome_iff_ne_none]
    intro hn
    exact ha ⟨i, hi, hn⟩
  obtain ⟨qs, hloop, hsh, hpres⟩ := setupLoop_ok (glitch_indices ps).dedup ps hep
  obtain ⟨p0, hp0, hcond⟩ := hb
  have hbad0 : badDecay (ps ++ qs) p0 = true :=
    (badDecay_of_orig hsh hpres hp0).mpr hcond
  have hfind : (decayScan (ps ++ qs)).isSome := by
    unfold decayScan
    rw [List.find?_isSome]
    exact ⟨p0, List.mem_append_left qs hp0, hbad0⟩
  obtain ⟨p1, hp1⟩ := Option.isSome_iff_exists.mp hfind
  have hbad1 : badDecay (ps ++ qs) p1 = true := List.find?_some hp1
  have hp1mem : p1 ∈ ps ++ qs := List.mem_of_find?_eq_some hp1
  have hp1ps : p1 ∈ ps := by
    rcases List.mem_append.mp hp1mem with h | h
    · exact h
    · rw [badDecay_of_added hsh h] at hbad1
      cases hbad1
  obtain ⟨h1, h2, h3⟩ := (badDecay_of_orig hsh hpres hp1ps).mp hbad1
  exact ⟨p1, hp1ps, h1, h2, h3, by simp only [setup, hloop, decayScan] at hp1 ⊢; rw [hp1]⟩

/-- C6: `setup` raises a `MissingParameter` error exactly when (a) some
collected glitch index has no matching `GLEP_` parameter — the error
naming the component `"Glitch"` and the missing epoch key — or (b) some
index has a nonzero `GLF0D_` value while the (zero-defaulted) `GLTD_`
value at that index is zero — the error naming the decay-timescale key;
when neither condition holds, `setup` succeeds. -/
theorem setup_missing_parameter_characterization (ps : List Param) :
    ((∃ ps2, setup ps = Except.ok ps2) ↔ ¬ condA ps ∧ ¬ condB ps) ∧
    (∀ er, setup ps = Except.error er →
      (∃ i, i ∈ (glitch_indices ps).dedup ∧ lookupPar ps Fam.GLEP i = none ∧
        er = .missingParameter "Glitch" Fam.GLEP i) ∨
      (∃ p ∈ ps, p.fam = Fam.GLF0D ∧ p.value ≠ some 0 ∧ gltdZeroAfter ps p.index ∧
        er = .missingParameter "Glitch" Fam.GLTD p.index)) := by
  constructor
  · constructor
    · rintro ⟨ps2, hok⟩
      by_cases ha : condA ps
      · obtain ⟨i, _, _, he⟩ := setup_errA ha
        rw [he] at hok
        cases hok
      · by_cases hb : condB ps
        · obtain ⟨p, _, _, _, _, he⟩ := setup_errB ha hb
          rw [he] at hok
          cases hok
        · exact ⟨ha, hb⟩
    · rintro ⟨ha, hb⟩
      obtain ⟨qs, hok, _, _⟩ := setup_ok_of_conds ha hb
      exact ⟨ps ++ qs, hok⟩
  · intro er her
    by_cases ha : condA ps
    · obtain ⟨i, hi, hn, he⟩ := setup_errA ha
      rw [her] at he
      injection he with he
      exact Or.inl ⟨i, hi, hn, he⟩
    · by_cases hb : condB ps
      · obtain ⟨p, hp, h1, h2, h3, he⟩ := setup_errB ha hb
        rw [her] at he
        injection he with he
        exact Or.inr ⟨p, hp, h1, h2, h3, he⟩
      · obtain ⟨qs, hok, _, _⟩ := setup_ok_of_conds ha hb
        rw [her] at hok
        cases hok

/-- C9: validation is idempotent: if `setup ps` succeeds with normalized
store `ps2`, then `setup ps2` succeeds and returns `ps2` itself (so
every parameter value is left unchanged), and the set of glitch event
indices collected from `ps2` is identical to the set collected from
`ps`. -/
theorem setup_idempotent (ps ps2 : List Param) (h : setup ps = Except.ok ps2) :
    setup ps2 = Except.ok ps2 ∧
      (glitch_indices ps2).toFinset = (glitch_indices ps).toFinset := by
  obtain ⟨hloop, hscan⟩ := setup_ok_inversion h
  have hep : ∀ i ∈ (glitch_indices ps).dedup, hasPar ps Fam.GLEP i := by
    intro i hi
    unfold hasPar
    rw [Option.isSome_iff_ne_none]
    intro hn
    obtain ⟨j, _, _, he⟩ := setupLoop_error (glitch_indices ps).dedup ps ⟨i, hi, hn⟩
    rw [he] at hloop
    cases hloop
  obtain ⟨qs, hq, hsh, hpres⟩ := setupLoop_ok (glitch_indices ps).dedup ps hep
  rw [hq] at hloop
  injection hloop with hloop
  subst hloop
  have hmem2 : ∀ i, i ∈ glitch_indices (ps ++ qs) ↔ i ∈ glitch_indices ps := by
    intro i
    rw [mem_glitch_indices, mem_glitch_indices]
    constructor
    · rintro ⟨p, hp, hf, hidx⟩
      rcases List.mem_append.mp hp with hp | hp
      · exact ⟨p, hp, hf, hidx⟩
      · obtain ⟨_, hidx2, _⟩ := hsh p hp
        rw [List.mem_dedup, mem_glitch_indices] at hidx2
        rw [← hidx]
        exact hidx2
    · rintro ⟨p, hp, hf, hidx⟩
      exact ⟨p, List.mem_append_left qs hp, hf, hidx⟩
  refine ⟨?_, ?_⟩
  · have hid : setupLoop (glitch_indices (ps ++ qs)).dedup (ps ++ qs) =
        Except.ok (ps ++ qs) := by
      refine setupLoop_id _ _ ?_
      intro i hi
      rw [List.mem_dedup, hmem2 i, ← List.mem_dedup] at hi
      exact ⟨hasPar_append (hep i hi) qs, fun f hf => hpres i hi f hf⟩
    simp only [setup, hid, hscan]
  · ext i
    simp only [List.mem_toFinset]
    exact hmem2 i

/-! Helper lemmas about array entries. -/

theorem getD_map_get (g : TOA → ℝ) (toas : List TOA) (i : ℕ) (hi : i < toas.length) :
    (toas.map g).getD i 0 = g (toas.get ⟨i, hi⟩) := by
  induction toas generalizing i with
  | nil => cases hi
  | cons td rest ih =>
      cases i with
      | zero => simp [List.getD_cons_zero]
      | succ n =>
          simp only [List.map_cons, List.getD_cons_succ]
          exact ih n (Nat.lt_of_succ_lt_succ hi)

theorem getD_map_entry (g : TOA → ℝ) (toas : List TOA) (i : ℕ) :
    (toas.map g).getD i 0 = ((toas[i]?).map g).getD 0 := by
  induction toas generalizing i with
  | nil => rfl
  | cons td rest ih =>
      cases i with
      | zero => simp [List.getD_cons_zero]
      | succ n =>
          simp only [List.map_cons, List.getD_cons_succ, List.getElem?_cons_succ]
          exact ih n

theorem contribSum_middle (l1 l2 : List GlitchEvent) (e : GlitchEvent) (td : TOA) :
    ((l1 ++ e :: l2).map fun x => glitchContrib x td).sum =
      ((l1 ++ l2).map fun x => glitchContrib x td).sum + glitchContrib e td := by
  simp only [List.map_append, List.sum_append, List.map_cons, List.sum_cons]
  ring

/-- C1: for every glitch event and every timestamp whose
`dt = (tdbld − eph) · 86400 s − delay` is strictly positive, `glitch_phase`
adds to that timestamp's entry exactly
`GLPH + dt·(GLF0 + 0.5·dt·GLF1 + (1/6)·dt²·GLF2) + decay`, where the decay
term is `GLF0D · GLTD · (1 − exp(−dt/GLTD))` when `GLF0D ≠ 0` and exactly
`0` when `GLF0D = 0` (the zero branch of the source never computes the
decay factor, so a zero `GLTD` causes no division). -/
theorem glitch_phase_affected_contribution
    (l1 l2 : List GlitchEvent) (e : GlitchEvent) (toas : List TOA)
    (i : ℕ) (hi : i < toas.length)
    (hdt : 0 < dtOf e (toas.get ⟨i, hi⟩)) :
    (glitch_phase (l1 ++ e :: l2) toas).getD i 0 =
      (glitch_phase (l1 ++ l2) toas).getD i 0 +
        (e.dphs +
          dtOf e (toas.get ⟨i, hi⟩) *
            (e.dF0 + 0.5 * dtOf e (toas.get ⟨i, hi⟩) * e.dF1 +
              1 / 6 * dtOf e (toas.get ⟨i, hi⟩) ^ 2 * e.dF2) +
          (if e.dF0D ≠ 0 then
              e.dF0D * e.tau *
                (1 - Real.exp (-(dtOf e (toas.get ⟨i, hi⟩) / e.tau)))
            else 0)) := by
  unfold glitch_phase
  rw [getD_map_get _ _ i hi, getD_map_get _ _ i hi]
  rw [contribSum_middle]
  congr 1
  unfold glitchContrib
  rw [if_pos hdt]
  ring_nf

/-- C4: for every event and every timestamp with `dt ≤ 0` (the affected
test `dt > 0.0` is strict, so `dt = 0` exactly is not affected), the event
contributes exactly 0 to that timestamp's entry of the phase array, and
the entry is 0 in the array returned by each of the six derivative
operations. -/
theorem unaffected_entry_zero
    (e : GlitchEvent) (l1 l2 : List GlitchEvent) (toas : List TOA)
    (i : ℕ) (hi : i < toas.length)
    (hdt : dtOf e (toas.get ⟨i, hi⟩) ≤ 0) :
    glitchContrib e (toas.get ⟨i, hi⟩) = 0 ∧
    (glitch_phase (l1 ++ e :: l2) toas).getD i 0 =
      (glitch_phase (l1 ++ l2) toas).getD i 0 ∧
    resEntry (d_phase_d_GLPH e Fam.GLPH toas) i = some 0 ∧
    resEntry (d_phase_d_GLF0 e Fam.GLF0 toas) i = some 0 ∧
    resEntry (d_phase_d_GLF1 e Fam.GLF1 toas) i = some 0 ∧
    resEntry (d_phase_d_GLF2 e Fam.GLF2 toas) i = some 0 ∧
    resEntry (d_phase_d_GLF0D e Fam.GLF0D toas) i = some 0 ∧
    resEntry (d_phase_d_GLTD e Fam.GLTD toas) i = some 0 := by
  have hnot : ¬ (0 < dtOf e (toas.get ⟨i, hi⟩)) := not_lt.mpr hdt
  have hc : glitchContrib e (toas.get ⟨i, hi⟩) = 0 := by
    unfold glitchContrib
    rw [if_neg hnot]
  refine ⟨hc, ?_, ?_, ?_, ?_, ?_, ?_, ?_⟩
  · unfold glitch_phase
    rw [getD_map_get _ _ i hi, getD_map_get _ _ i hi, contribSum_middle, hc, add_zero]
  · unfold d_phase_d_GLPH resEntry
    rw [if_neg (by simp)]
    dsimp only
    rw [getD_map_get _ _ i hi, if_neg hnot]
  · unfold d_phase_d_GLF0 resEntry
    rw [if_neg (by simp)]
    dsimp only
    rw [getD_map_get _ _ i hi, if_neg hnot]
  · unfold d_phase_d_GLF1 resEntry
    rw [if_neg (by simp)]
    dsimp only
    rw [getD_map_get _ _ i hi, if_neg hnot]
  · unfold d_phase_d_GLF2 resEntry
    rw [if_neg (by simp)]
    dsimp only
    rw [getD_map_get _ _ i hi, if_neg hnot]
  · unfold d_phase_d_GLF0D resEntry
    rw [if_neg (by simp)]
    dsimp only
    rw [getD_map_get _ _ i hi, if_neg hnot]
  · unfold d_phase_d_GLTD resEntry
    rw [if_neg (by simp)]
    by_cases ht : e.tau = 0
    · rw [if_pos ht]
      dsimp only
      rw [getD_map_get (fun _ => (0 : ℝ)) _ i hi]
    · rw [if_neg ht]
      dsimp only
      rw [getD_map_get _ _ i hi, if_neg hnot]

/-- C7: whenever the current decay-timescale value is exactly 0,
`d_phase_d_GLTD` (invoked with its own family's parameter name) returns an
all-zero array of the timestamps' length unconditionally — also when the
decay amplitude is nonzero — and its divisor list is empty: the division
by the decay timescale is never performed. -/
theorem gltd_deriv_zero_tau (e : GlitchEvent) (toas : List TOA) (h : e.tau = 0) :
    (∃ v, d_phase_d_GLTD e Fam.GLTD toas = Except.ok v ∧
      v.length = toas.length ∧ ∀ i, v.getD i 0 = 0) ∧
    gltdDerivDivisors e toas = [] := by
  constructor
  · refine ⟨toas.map fun _ => 0, ?_, by simp, ?_⟩
    · unfold d_phase_d_GLTD
      rw [if_neg (by simp), if_pos h]
    · intro i
      rw [getD_map_entry]
      cases toas[i]? <;> simp
  · unfold gltdDerivDivisors
    rw [if_pos h]

/-- C8: each of the six derivative operations, when invoked with a
parameter name whose family prefix is not the family the operation is
responsible for, raises a `ValueError` (and hence returns no array). -/
theorem deriv_prefix_mismatch (e : GlitchEvent) (toas : List TOA) (fam : Fam) :
    (fam ≠ Fam.GLPH →
      d_phase_d_GLPH e fam toas = Except.error (.valueError .GLPH fam)) ∧
    (fam ≠ Fam.GLF0 →
      d_phase_d_GLF0 e fam toas = Except.error (.valueError .GLF0 fam)) ∧
    (fam ≠ Fam.GLF1 →
      d_phase_d_GLF1 e fam toas = Except.error (.valueError .GLF1 fam)) ∧
    (fam ≠ Fam.GLF2 →
      d_phase_d_GLF2 e fam toas = Except.error (.valueError .GLF2 fam)) ∧
    (fam ≠ Fam.GLF0D →
      d_phase_d_GLF0D e fam toas = Except.error (.valueError .GLF0D fam)) ∧
    (fam ≠ Fam.GLTD →
      d_phase_d_GLTD e fam toas = Except.error (.valueError .GLTD fam)) := by
  refine ⟨?_, ?_, ?_, ?_, ?_, ?_⟩ <;> intro h
  · unfold d_phase_d_GLPH
    rw [if_pos h]
  · unfold d_phase_d_GLF0
    rw [if_pos h]
  · unfold d_phase_d_GLF1
    rw [if_pos h]
  · unfold d_phase_d_GLF2
    rw [if_pos h]
  · unfold d_phase_d_GLF0D
    rw [if_pos h]
  · unfold d_phase_d_GLTD
    rw [if_pos h]

theorem zeroFields_contrib (e : GlitchEvent) (td : TOA) :
    glitchContrib (zeroFields e) td = 0 := by
  unfold glitchContrib zeroFields
  dsimp only
  split
  · norm_num
  · rfl

/-- C10: the phase array is the pointwise sum of per-event contributions:
it is invariant under permutation of the event list, and for a timestamp
covered by two overlapping glitches the entry equals the sum of each
glitch's individual contribution computed with the other glitch's fields
all zero. -/
theorem glitch_phase_additive (g1 g2 : GlitchEvent) (l l2 : List GlitchEvent)
    (toas : List TOA) (i : ℕ) (hp : l.Perm l2) :
    glitch_phase l toas = glitch_phase l2 toas ∧
    (glitch_phase [g1, g2] toas).getD i 0 =
      (glitch_phase [g1, zeroFields g2] toas).getD i 0 +
        (glitch_phase [zeroFields g1, g2] toas).getD i 0 := by
  constructor
  · unfold glitch_phase
    refine List.map_congr_left ?_
    intro td _
    exact List.Perm.sum_eq (hp.map fun e => glitchContrib e td)
  · unfold glitch_phase
    rw [getD_map_entry, getD_map_entry, getD_map_entry]
    cases toas[i]? with
    | none => simp
    | some td => simp [zeroFields_contrib]

/-! The per-event phase contribution, as a real function of one parameter
value at a time, is differentiable, with derivative the very expression
the matching derivative function computes. -/

theorem hasDerivAt_linear (A B x0 : ℝ) : HasDerivAt (fun x => A * x + B) A x0 := by
  simpa using ((hasDerivAt_id x0).const_mul A).add_const B

theorem hasDerivAt_contrib_dphs (e : GlitchEvent) (td : TOA) (hdt : 0 < dtOf e td) :
    HasDerivAt (fun x => glitchContrib { e with dphs := x } td) 1 e.dphs := by
  have hfun : (fun x => glitchContrib { e with dphs := x } td) =
      fun x => 1 * x +
        (dtOf e td * (e.dF0 + 0.5 * dtOf e td * e.dF1 +
            1 / 6 * dtOf e td * dtOf e td * e.dF2) +
          (if e.dF0D ≠ 0 then
              e.dF0D * e.tau * (1 - Real.exp (-(dtOf e td / e.tau)))
            else 0)) := by
    funext x
    unfold glitchContrib
    rw [show dtOf { e with dphs := x } td = dtOf e td from rfl, if_pos hdt]
    dsimp only
    ring
  rw [hfun]
  exact hasDerivAt_linear _ _ _

theorem hasDerivAt_contrib_dF0 (e : GlitchEvent) (td : TOA) (hdt : 0 < dtOf e td) :
    HasDerivAt (fun x => glitchContrib { e with dF0 := x } td) (dtOf e td) e.dF0 := by
  have hfun : (fun x => glitchContrib { e with dF0 := x } td) =
      fun x => dtOf e td * x +
        (e.dphs + dtOf e td * (0.5 * dtOf e td * e.dF1 +
            1 / 6 * dtOf e td * dtOf e td * e.dF2) +
          (if e.dF0D ≠ 0 then
              e.dF0D * e.tau * (1 - Real.exp (-(dtOf e td / e.tau)))
            else 0)) := by
    funext x
    unfold glitchContrib
    rw [show dtOf { e with dF0 := x } td = dtOf e td from rfl, if_pos hdt]
    dsimp only
    ring
  rw [hfun]
  exact hasDerivAt_linear _ _ _

theorem hasDerivAt_contrib_dF1 (e : GlitchEvent) (td : TOA) (hdt : 0 < dtOf e td) :
    HasDerivAt (fun x => glitchContrib { e with dF1 := x } td)
      (0.5 * dtOf e td ^ 2) e.dF1 := by
  have hfun : (fun x => glitchContrib { e with dF1 := x } td) =
      fun x => 0.5 * dtOf e td ^ 2 * x +
        (e.dphs + dtOf e td * (e.dF0 +
            1 / 6 * dtOf e td * dtOf e td * e.dF2) +
          (if e.dF0D ≠ 0 then
              e.dF0D * e.tau * (1 - Real.exp (-(dtOf e td / e.tau)))
            else 0)) := by
    funext x
    unfold glitchContrib
    rw [show dtOf { e with dF1 := x } td = dtOf e td from rfl, if_pos hdt]
    dsimp only
    ring
  rw [hfun]
  exact hasDerivAt_linear _ _ _

theorem hasDerivAt_contrib_dF2 (e : GlitchEvent) (td : TOA) (hdt : 0 < dtOf e td) :
    HasDerivAt (fun x => glitchContrib { e with dF2 := x } td)
      (1 / 6 * dtOf e td ^ 3) e.dF2 := by
  have hfun : (fun x => glitchContrib { e with dF2 := x } td) =
      fun x => 1 / 6 * dtOf e td ^ 3 * x +
        (e.dphs + dtOf e td * (e.dF0 + 0.5 * dtOf e td * e.dF1) +
          (if e.dF0D ≠ 0 then
              e.dF0D * e.tau * (1 - Real.exp (-(dtOf e td / e.tau)))
            else 0)) := by
    funext x
    unfold glitchContrib
    rw [show dtOf { e with dF2 := x } td = dtOf e td from rfl, if_pos hdt]
    dsimp only
    ring
  rw [hfun]
  exact hasDerivAt_linear _ _ _

theorem hasDerivAt_contrib_dF0D (e : GlitchEvent) (td : TOA) (hdt : 0 < dtOf e td) :
    HasDerivAt (fun x => glitchContrib { e with dF0D := x } td)
      (e.tau * (1 - Real.exp (-(dtOf e td / e.tau)))) e.dF0D := by
  have hfun : (fun x => glitchContrib { e with dF0D := x } td) =
      fun x => e.tau * (1 - Real.exp (-(dtOf e td / e.tau))) * x +
        (e.dphs + dtOf e td * (e.dF0 + 0.5 * dtOf e td * e.dF1 +
            1 / 6 * dtOf e td * dtOf e td * e.dF2)) := by
    funext x
    unfold glitchContrib
    rw [show dtOf { e with dF0D := x } td = dtOf e td from rfl, if_pos hdt]
    dsimp only
    by_cases hx : x = 0
    · subst hx
      rw [if_neg (by simp)]
      ring
    · rw [if_pos hx]
      ring
  rw [hfun]
  exact hasDerivAt_linear _ _ _

theorem hasDerivAt_contrib_tau (e : GlitchEvent) (td : TOA) (hdt : 0 < dtOf e td)
    (hv : e.dF0D ≠ 0 → e.tau ≠ 0) :
    HasDerivAt (fun x => glitchContrib { e with tau := x } td)
      (e.dF0D * (1 - Real.exp (-(dtOf e td / e.tau))) +
        e.dF0D * e.tau * (-Real.exp (-(dtOf e td / e.tau))) * dtOf e td /
          e.tau ^ 2) e.tau := by
  by_cases h0 : e.dF0D = 0
  · have hfun : (fun x => glitchContrib { e with tau := x } td) =
        fun _ => e.dphs + dtOf e td * (e.dF0 + 0.5 * dtOf e td * e.dF1 +
          1 / 6 * dtOf e td * dtOf e td * e.dF2) := by
      funext x
      unfold glitchContrib
      rw [show dtOf { e with tau := x } td = dtOf e td from rfl, if_pos hdt]
      dsimp only
      rw [if_neg (by simp [h0])]
      ring
    rw [hfun]
    have hd : e.dF0D * (1 - Real.exp (-(dtOf e td / e.tau))) +
        e.dF0D * e.tau * (-Real.exp (-(dtOf e td / e.tau))) * dtOf e td /
          e.tau ^ 2 = 0 := by
      rw [h0]
      ring
    rw [hd]
    exact hasDerivAt_const _ _
  · have htau : e.tau ≠ 0 := hv h0
    have hfun : (fun x => glitchContrib { e with tau := x } td) =
        fun x => (e.dphs + dtOf e td * (e.dF0 + 0.5 * dtOf e td * e.dF1 +
            1 / 6 * dtOf e td * dtOf e td * e.dF2)) +
          e.dF0D * x * (1 - Real.exp (-(dtOf e td / x))) := by
      funext x
      unfold glitchContrib
      rw [show dtOf { e with tau := x } td = dtOf e td from rfl, if_pos hdt]
      dsimp only
      rw [if_pos h0]
    rw [hfun]
    have hinner : HasDerivAt (fun x : ℝ => -(dtOf e td / x))
        (dtOf e td / e.tau ^ 2) e.tau := by
      have h1 : HasDerivAt (fun x : ℝ => dtOf e td / x)
          (dtOf e td * -(e.tau ^ 2)⁻¹) e.tau :=
        (hasDerivAt_inv htau).const_mul (dtOf e td)
      have h2 := h1.neg
      convert h2 using 1
      field_simp
    have hexp : HasDerivAt (fun x : ℝ => Real.exp (-(dtOf e td / x)))
        (Real.exp (-(dtOf e td / e.tau)) * (dtOf e td / e.tau ^ 2)) e.tau :=
      hinner.exp
    have hone : HasDerivAt (fun x : ℝ => 1 - Real.exp (-(dtOf e td / x)))
        (-(Real.exp (-(dtOf e td / e.tau)) * (dtOf e td / e.tau ^ 2))) e.tau :=
      hexp.const_sub 1
    have hlin : HasDerivAt (fun x : ℝ => e.dF0D * x) e.dF0D e.tau := by
      simpa using (hasDerivAt_id e.tau).const_mul e.dF0D
    have hmul := hlin.mul hone
    have hsum := hmul.const_add (e.dphs + dtOf e td * (e.dF0 +
      0.5 * dtOf e td * e.dF1 + 1 / 6 * dtOf e td * dtOf e td * e.dF2))
    convert hsum using 1
    field_simp
    ring

/-- C2: on affected timestamps (`dt > 0`), each of the six derivative
operations returns the analytic partial derivative of the forward phase
with respect to its parameter family — `1` for GLPH, `dt` for GLF0,
`0.5·dt²` for GLF1, `(1/6)·dt³` for GLF2, `GLTD·(1 − exp(−dt/GLTD))` for
GLF0D and `GLF0D·(1 − exp(−dt/τ)) + GLF0D·τ·(−exp(−dt/τ))·dt/τ²` for
GLTD — computed from the same `dtOf` arithmetic and the same strict
`dt > 0` affected test as the forward model; and these values really are
the derivatives of the per-event phase contribution in the corresponding
field (for GLTD under the invariant `GLF0D ≠ 0 → GLTD ≠ 0` that
validation enforces). -/
theorem d_phase_formulas_and_derivatives
    (e : GlitchEvent) (toas : List TOA) (i : ℕ) (hi : i < toas.length)
    (hdt : 0 < dtOf e (toas.get ⟨i, hi⟩)) :
    resEntry (d_phase_d_GLPH e Fam.GLPH toas) i = some 1 ∧
    resEntry (d_phase_d_GLF0 e Fam.GLF0 toas) i =
      some (dtOf e (toas.get ⟨i, hi⟩)) ∧
    resEntry (d_phase_d_GLF1 e Fam.GLF1 toas) i =
      some (0.5 * dtOf e (toas.get ⟨i, hi⟩) ^ 2) ∧
    resEntry (d_phase_d_GLF2 e Fam.GLF2 toas) i =
      some (1 / 6 * dtOf e (toas.get ⟨i, hi⟩) ^ 3) ∧
    resEntry (d_phase_d_GLF0D e Fam.GLF0D toas) i =
      some (e.tau * (1 - Real.exp (-(dtOf e (toas.get ⟨i, hi⟩) / e.tau)))) ∧
    resEntry (d_phase_d_GLTD e Fam.GLTD toas) i =
      some (e.dF0D * (1 - Real.exp (-(dtOf e (toas.get ⟨i, hi⟩) / e.tau))) +
        e.dF0D * e.tau * (-Real.exp (-(dtOf e (toas.get ⟨i, hi⟩) / e.tau))) *
          dtOf e (toas.get ⟨i, hi⟩) / e.tau ^ 2) ∧
    HasDerivAt (fun x => glitchContrib { e with dphs := x } (toas.get ⟨i, hi⟩))
      1 e.dphs ∧
    HasDerivAt (fun x => glitchContrib { e with dF0 := x } (toas.get ⟨i, hi⟩))
      (dtOf e (toas.get ⟨i, hi⟩)) e.dF0 ∧
    HasDerivAt (fun x => glitchContrib { e with dF1 := x } (toas.get ⟨i, hi⟩))
      (0.5 * dtOf e (toas.get ⟨i, hi⟩) ^ 2) e.dF1 ∧
    HasDerivAt (fun x => glitchContrib { e with dF2 := x } (toas.get ⟨i, hi⟩))
      (1 / 6 * dtOf e (toas.get ⟨i, hi⟩) ^ 3) e.dF2 ∧
    HasDerivAt (fun x => glitchContrib { e with dF0D := x } (toas.get ⟨i, hi⟩))
      (e.tau * (1 - Real.exp (-(dtOf e (toas.get ⟨i, hi⟩) / e.tau)))) e.dF0D ∧
    ((e.dF0D ≠ 0 → e.tau ≠ 0) →
      HasDerivAt (fun x => glitchContrib { e with tau := x } (toas.get ⟨i, hi⟩))
        (e.dF0D * (1 - Real.exp (-(dtOf e (toas.get ⟨i, hi⟩) / e.tau))) +
          e.dF0D * e.tau * (-Real.exp (-(dtOf e (toas.get ⟨i, hi⟩) / e.tau))) *
            dtOf e (toas.get ⟨i, hi⟩) / e.tau ^ 2) e.tau) := by
  refine ⟨?_, ?_, ?_, ?_, ?_, ?_, hasDerivAt_contrib_dphs e _ hdt,
    hasDerivAt_contrib_dF0 e _ hdt, hasDerivAt_contrib_dF1 e _ hdt,
    hasDerivAt_contrib_dF2 e _ hdt, hasDerivAt_contrib_dF0D e _ hdt,
    fun hv => hasDerivAt_contrib_tau e _ hdt hv⟩
  · unfold d_phase_d_GLPH resEntry
    rw [if_neg (by simp)]
    dsimp only
    rw [getD_map_get _ _ i hi, if_pos hdt]
  · unfold d_phase_d_GLF0 resEntry
    rw [if_neg (by simp)]
    dsimp only
    rw [getD_map_get _ _ i hi, if_pos hdt]
  · unfold d_phase_d_GLF1 resEntry
    rw [if_neg (by simp)]
    dsimp only
    rw [getD_map_get _ _ i hi, if_pos hdt]
    congr 1
    ring
  · unfold d_phase_d_GLF2 resEntry
    rw [if_neg (by simp)]
    dsimp only
    rw [getD_map_get _ _ i hi, if_pos hdt]
    congr 1
    ring
  · unfold d_phase_d_GLF0D resEntry
    rw [if_neg (by simp)]
    dsimp only
    rw [getD_map_get _ _ i hi, if_pos hdt]
  · unfold d_phase_d_GLTD resEntry
    rw [if_neg (by simp)]
    by_cases ht : e.tau = 0
    · rw [if_pos ht]
      dsimp only
      rw [getD_map_get (fun _ => (0 : ℝ)) _ i hi]
      rw [ht]
      simp
    · rw [if_neg ht]
      dsimp only
      rw [getD_map_get _ _ i hi, if_pos hdt]
      congr 1
      ring

/-- A parameter store holding the seven index-1 parameters the component
constructs (with their default values, the epoch set by the user to
MJD 50000) together with one user-supplied `GLEP_3` epoch and no other
index-3 parameter. -/
def glep3Input : List Param :=
  [⟨.GLPH, 1, some 0⟩, ⟨.GLEP, 1, some 50000⟩, ⟨.GLF0, 1, some 0⟩,
   ⟨.GLF1, 1, some 0⟩, ⟨.GLF2, 1, some 0⟩, ⟨.GLF0D, 1, some 0⟩,
   ⟨.GLTD, 1, some 0⟩, ⟨.GLEP, 3, some 55000⟩]

/-- C3: on a store whose only index-3 parameter is the epoch `GLEP_3`,
`setup` succeeds but ignores index 3 entirely: the collected glitch
indices come from the six per-glitch families only (`GLEP_` is not
scanned), so index 3 is not collected, no index-3 family parameter is
synthesized (`GLPH_3` is still absent afterwards), and the resulting
store no longer supports `glitch_phase`, whose per-epoch attribute reads
fail on `GLPH_3`. -/
theorem setup_ignores_glep_only_index :
    setup glep3Input = Except.ok glep3Input ∧
    3 ∉ glitch_indices glep3Input ∧
    lookupPar glep3Input Fam.GLPH 3 = none ∧
    glitchPhaseAttrsPresent glep3Input = false := by
  refine ⟨by rfl, by decide, by rfl, by rfl⟩

theorem mem_affected_flat {e : GlitchEvent} {toas : List TOA} {L : List ℝ} {x : ℝ}
    (h : x ∈ toas.flatMap fun td => if 0 < dtOf e td then L else []) : x ∈ L := by
  rw [List.mem_flatMap] at h
  obtain ⟨td, _, hm⟩ := h
  by_cases hc : 0 < dtOf e td
  · rwa [if_pos hc] at hm
  · rw [if_neg hc] at hm
    cases hm

/-- An event with zero decay amplitude and zero decay timescale (a
combination `setup` accepts) observed strictly after its epoch. -/
def e0 : GlitchEvent := ⟨0, 0, 0, 0, 0, 0, 0⟩

/-- One timestamp one day after MJD 0 with zero delay. -/
def toas0 : List TOA := [((1 : ℝ), 0)]

/-- C5 counterexample: the event `e0` satisfies the validation invariant
(`GLF0D ≠ 0 → GLTD ≠ 0` holds vacuously since its `GLF0D` is 0), yet on a
timestamp with `dt > 0` the divisor list of `d_phase_d_GLF0D` contains 0:
that operation divides by the zero decay timescale unguarded. -/
theorem glf0d_deriv_divides_by_zero :
    (e0.dF0D ≠ 0 → e0.tau ≠ 0) ∧ (0 : ℝ) ∈ glf0dDerivDivisors e0 toas0 := by
  constructor
  · intro h
    exact absurd (show e0.dF0D = 0 from rfl) h
  · have hdt : 0 < dtOf e0 ((1 : ℝ), 0) := by norm_num [dtOf, e0]
    unfold glf0dDerivDivisors toas0
    simp only [List.flatMap_cons, List.flatMap_nil, List.append_nil]
    rw [if_pos hdt]
    simp [e0]

/-- C5 amended: for every event satisfying the validation invariant
`GLF0D ≠ 0 → GLTD ≠ 0`, the decay term of `glitch_phase` and the guarded
`d_phase_d_GLTD` never divide by zero; `d_phase_d_GLF0D` is division-safe
only under the extra assumption `GLTD ≠ 0` — its division by the decay
timescale is unguarded and hits zero when `GLTD = 0` (reachable, since
`GLF0D = 0` with `GLTD = 0` passes validation). -/
theorem division_safety (e : GlitchEvent) (toas : List TOA)
    (hv : e.dF0D ≠ 0 → e.tau ≠ 0) :
    (0 : ℝ) ∉ glitchPhaseDivisors e toas ∧
    (0 : ℝ) ∉ gltdDerivDivisors e toas ∧
    (e.tau ≠ 0 → (0 : ℝ) ∉ glf0dDerivDivisors e toas) := by
  refine ⟨?_, ?_, ?_⟩
  · unfold glitchPhaseDivisors
    by_cases h0 : e.dF0D ≠ 0
    · rw [if_pos h0]
      intro hmem
      have := mem_affected_flat hmem
      rw [List.mem_singleton] at this
      exact hv h0 this.symm
    · rw [if_neg h0]
      exact List.not_mem_nil _
  · unfold gltdDerivDivisors
    by_cases ht : e.tau = 0
    · rw [if_pos ht]
      exact List.not_mem_nil _
    · rw [if_neg ht]
      intro hmem
      have := mem_affected_flat hmem
      rcases List.mem_cons.mp this with h | h
      · exact ht h.symm
      · rw [List.mem_singleton] at h
        exact mul_ne_zero ht ht h.symm
  · intro ht hmem
    have := mem_affected_flat hmem
    rw [List.mem_singleton] at this
    exact ht this.symm

/-! Concrete instances exercising each parameterized theorem. -/

/-- An event with every field set and a nonzero decay term, observed one
day after its epoch. -/
def eW2 : GlitchEvent := ⟨0, 1, 1, 1, 1, 2, 3⟩

/-- An event whose epoch lies after the single observation of `toas0`. -/
def eW3 : GlitchEvent := ⟨2, 1, 1, 1, 1, 1, 1⟩

/-- An event with zero decay timescale but nonzero decay amplitude. -/
def eW4 : GlitchEvent := ⟨0, 0, 0, 0, 0, 17, 0⟩

/-- A validated event with nonzero decay amplitude and timescale. -/
def eW1 : GlitchEvent := ⟨0, 0, 0, 0, 0, 1, 1⟩

theorem glitch_phase_affected_contribution_witness :
    0 < dtOf eW2 (toas0.get ⟨0, by norm_num [toas0]⟩) ∧
    (glitch_phase ([] ++ eW2 :: []) toas0).getD 0 0 =
      (glitch_phase ([] ++ []) toas0).getD 0 0 +
        (eW2.dphs +
          dtOf eW2 (toas0.get ⟨0, by norm_num [toas0]⟩) *
            (eW2.dF0 + 0.5 * dtOf eW2 (toas0.get ⟨0, by norm_num [toas0]⟩) * eW2.dF1 +
              1 / 6 * dtOf eW2 (toas0.get ⟨0, by norm_num [toas0]⟩) ^ 2 * eW2.dF2) +
          (if eW2.dF0D ≠ 0 then
              eW2.dF0D * eW2.tau *
                (1 - Real.exp (-(dtOf eW2 (toas0.get ⟨0, by norm_num [toas0]⟩) / eW2.tau)))
            else 0)) := by
  have hi : 0 < toas0.length := by norm_num [toas0]
  have hdt : 0 < dtOf eW2 (toas0.get ⟨0, hi⟩) := by norm_num [dtOf, eW2, toas0]
  exact ⟨hdt, glitch_phase_affected_contribution [] [] eW2 toas0 0 hi hdt⟩

theorem d_phase_formulas_and_derivatives_witness :
    0 < dtOf eW2 (toas0.get ⟨0, by norm_num [toas0]⟩) ∧
    resEntry (d_phase_d_GLPH eW2 Fam.GLPH toas0) 0 = some 1 := by
  have hi : 0 < toas0.length := by norm_num [toas0]
  have hdt : 0 < dtOf eW2 (toas0.get ⟨0, hi⟩) := by norm_num [dtOf, eW2, toas0]
  exact ⟨hdt, (d_phase_formulas_and_derivatives eW2 toas0 0 hi hdt).1⟩

theorem unaffected_entry_zero_witness :
    dtOf eW3 (toas0.get ⟨0, by norm_num [toas0]⟩) ≤ 0 ∧
    glitchContrib eW3 (toas0.get ⟨0, by norm_num [toas0]⟩) = 0 := by
  have hi : 0 < toas0.length := by norm_num [toas0]
  have hdt : dtOf eW3 (toas0.get ⟨0, hi⟩) ≤ 0 := by norm_num [dtOf, eW3, toas0]
  exact ⟨hdt, (unaffected_entry_zero eW3 [] [] toas0 0 hi hdt).1⟩

theorem division_safety_witness :
    (eW1.dF0D ≠ 0 → eW1.tau ≠ 0) ∧
    ((0 : ℝ) ∉ glitchPhaseDivisors eW1 toas0 ∧
      (0 : ℝ) ∉ gltdDerivDivisors eW1 toas0 ∧
      (eW1.tau ≠ 0 → (0 : ℝ) ∉ glf0dDerivDivisors eW1 toas0)) := by
  have hv : eW1.dF0D ≠ 0 → eW1.tau ≠ 0 := by
    intro _
    norm_num [eW1]
  exact ⟨hv, division_safety eW1 toas0 hv⟩

/-- A store on which the decay-term check fires: `GLF0D_2` is nonzero
while no `GLTD_2` parameter is configured (so it defaults to zero). -/
def badDecayInput : List Param :=
  glep3Input ++ [⟨.GLEP, 2, some 51000⟩, ⟨.GLF0D, 2, some 1⟩]

theorem setup_missing_parameter_characterization_witness :
    condB badDecayInput ∧ ∀ ps2, setup badDecayInput ≠ Except.ok ps2 := by
  have h := (setup_missing_parameter_characterization badDecayInput).1
  have hcb : condB badDecayInput := by decide
  refine ⟨hcb, fun ps2 hok => ?_⟩
  exact (h.mp ⟨ps2, hok⟩).2 hcb

theorem gltd_deriv_zero_tau_witness :
    eW4.tau = 0 ∧ eW4.dF0D ≠ 0 ∧ gltdDerivDivisors eW4 toas0 = [] := by
  refine ⟨rfl, by norm_num [eW4], ?_⟩
  exact (gltd_deriv_zero_tau eW4 toas0 rfl).2

theorem deriv_prefix_mismatch_witness :
    d_phase_d_GLPH eW2 Fam.GLEP toas0 = Except.error (.valueError .GLPH .GLEP) ∧
    d_phase_d_GLF0 eW2 Fam.GLEP toas0 = Except.error (.valueError .GLF0 .GLEP) ∧
    d_phase_d_GLF1 eW2 Fam.GLEP toas0 = Except.error (.valueError .GLF1 .GLEP) ∧
    d_phase_d_GLF2 eW2 Fam.GLEP toas0 = Except.error (.valueError .GLF2 .GLEP) ∧
    d_phase_d_GLF0D eW2 Fam.GLEP toas0 = Except.error (.valueError .GLF0D .GLEP) ∧
    d_phase_d_GLTD eW2 Fam.GLEP toas0 = Except.error (.valueError .GLTD .GLEP) := by
  obtain ⟨h1, h2, h3, h4, h5, h6⟩ := deriv_prefix_mismatch eW2 toas0 Fam.GLEP
  exact ⟨h1 (by decide), h2 (by decide), h3 (by decide), h4 (by decide),
    h5 (by decide), h6 (by decide)⟩

theorem setup_idempotent_witness :
    setup glep3Input = Except.ok glep3Input ∧
    (setup glep3Input = Except.ok glep3Input ∧
      (glitch_indices glep3Input).toFinset = (glitch_indices glep3Input).toFinset) := by
  have h : setup glep3Input = Except.ok glep3Input := by rfl
  exact ⟨h, setup_idempotent glep3Input glep3Input h⟩

theorem glitch_phase_additive_witness :
    ([eW2, eW3]).Perm [eW3, eW2] ∧
    (glitch_phase [eW2, eW3] toas0 = glitch_phase [eW3, eW2] toas0 ∧
      (glitch_phase [eW2, eW3] toas0).getD 0 0 =
        (glitch_phase [eW2, zeroFields eW3] toas0).getD 0 0 +
          (glitch_phase [zeroFields eW2, eW3] toas0).getD 0 0) := by
  have hp : ([eW2, eW3]).Perm [eW3, eW2] := List.Perm.swap eW3 eW2 []
  exact ⟨hp, glitch_phase_additive eW2 eW3 [eW2, eW3] [eW3, eW2] toas0 0 hp⟩

end PintGlitch
